import Mathlib

/-!
# Verification of the synckr reconciliation and transfer engine

Shallow embedding of the core of `synckr/synckr.go` (package `synckr`):
the remote inventory reader (`RetrievePageFromFlickr`, `RetrieveFromFlickr`),
the duplicate detector (`DeleteDupes`), the transfer component
(`UploadPhoto` with its retry loop) and the reconciler (`Process`'s walk
callback: presence decision via `sort.Search`, upload retry, snapshot
update).

Remote calls are modelled by oracles: a function from call index to the
response that call would produce.  Sleeps and calls are recorded as
counters or event traces so that retry policies can be stated exactly.

Go string comparison (`<`, `>=` on `string`) is byte-wise lexicographic;
it is embedded as the lexicographic comparison `strLe` on the character
list of the string, which agrees with byte order for the ASCII data in
scope and which the kernel can evaluate on concrete inputs.
-/

namespace Synckr

/-- Go `s <= t` on strings: lexicographic comparison of the character
sequences. -/
def charListLe : List Char → List Char → Bool
  | [], _ => true
  | _ :: _, [] => false
  | a :: s, b :: t => if a < b then true else if b < a then false else charListLe s t

/-- Go string comparison `a <= t`, so `Title >= photoName` is
`strLe photoName Title`. -/
def strLe (a b : String) : Bool := charListLe a.data b.data

/-- Go `strings.ToLower` (ASCII case mapping, which covers every
extension and title in scope). -/
def strToLower (s : String) : String := ⟨s.data.map Char.toLower⟩

theorem charListLe_total : ∀ s t, charListLe s t = true ∨ charListLe t s = true
  | [], _ => .inl rfl
  | _ :: _, [] => .inr rfl
  | a :: s, b :: t => by
    simp only [charListLe]
    rcases lt_trichotomy a b with h | h | h
    · left; simp [h]
    · subst h
      simpa [lt_irrefl] using charListLe_total s t
    · right; simp [h, not_lt_of_gt h]

theorem charListLe_trans :
    ∀ s t u, charListLe s t = true → charListLe t u = true → charListLe s u = true
  | [], _, _ => by intro _ _; rfl
  | _ :: _, [], _ => by intro h; exact absurd h (by simp [charListLe])
  | _ :: _, _ :: _, [] => by intro _ h; exact absurd h (by simp [charListLe])
  | a :: s, b :: t, c :: u => by
    intro h1 h2
    simp only [charListLe] at h1 h2 ⊢
    rcases lt_trichotomy a b with hab | hab | hab
    · rcases lt_trichotomy b c with hbc | hbc | hbc
      · simp [lt_trans hab hbc]
      · subst hbc; simp [hab]
      · simp [hbc, not_lt_of_gt hbc] at h2
    · subst hab
      rcases lt_trichotomy a c with hbc | hbc | hbc
      · simp [hbc]
      · subst hbc
        simp only [lt_irrefl, if_false] at h1 h2 ⊢
        exact charListLe_trans s t u h1 h2
      · simp [hbc, not_lt_of_gt hbc] at h2
    · simp [hab, not_lt_of_gt hab] at h1

theorem strLe_total (a b : String) : strLe a b = true ∨ strLe b a = true :=
  charListLe_total a.data b.data

theorem strLe_trans {a b c : String} (h1 : strLe a b = true) (h2 : strLe b c = true) :
    strLe a c = true :=
  charListLe_trans a.data b.data c.data h1 h2

/-- Structure `FlickrPhoto` from synckr.go: remote photo id and title. -/
structure FlickrPhoto where
  id : String
  title : String
deriving DecidableEq, Repr

/-- Structure `FlickrPhotoset` from synckr.go: remote album id and its photo list. -/
structure FlickrPhotoset where
  id : String
  photos : List FlickrPhoto
deriving DecidableEq, Repr

/-- Zero value of `FlickrPhoto` (Go's zero struct), used for the
`getD` reads that model in-range Go slice indexing. -/
def defaultPhoto : FlickrPhoto := ⟨"", ""⟩

/-- Zero value of `FlickrPhotoset`: what a Go map read returns on a
missing key. -/
def defaultPhotoset : FlickrPhotoset := ⟨"", []⟩

/-- The inventory snapshot `map[string]FlickrPhotoset`, modelled as an
association list from album title to photoset. -/
abbrev Snapshot := List (String × FlickrPhotoset)

/-- Go map read `m[name]` on the association-list model. -/
def lookupAlbum : Snapshot → String → Option FlickrPhotoset
  | [], _ => none
  | (k, v) :: s, name => if k = name then some v else lookupAlbum s name

/-- Entry rewrite used by `updateAlbum` when the key is already bound. -/
def replaceEntry (name : String) (v : FlickrPhotoset) :
    String × FlickrPhotoset → String × FlickrPhotoset
  | (k, b) => if k = name then (name, v) else (k, b)

/-- Go map assignment `m[name] = v` on the association-list model:
replace the entries carrying `name` when the key is present, append
otherwise. -/
def updateAlbum (s : Snapshot) (name : String) (v : FlickrPhotoset) : Snapshot :=
  if (lookupAlbum s name).isSome then s.map (replaceEntry name v)
  else s ++ [(name, v)]

/-- The sort order used throughout: ascending by photo title
(`FlickrPhotosByTitle.Less` is `a.Title < b.Title`, so a sorted slice is
non-decreasing by title). -/
def titleLE (a b : FlickrPhoto) : Prop := strLe a.title b.title = true

instance : DecidableRel titleLE := fun a b =>
  inferInstanceAs (Decidable (strLe a.title b.title = true))

instance : IsTotal FlickrPhoto titleLE := ⟨fun a b => strLe_total a.title b.title⟩

instance : IsTrans FlickrPhoto titleLE := ⟨fun _ _ _ h h' => strLe_trans h h'⟩

/-- An album's photo list is sorted non-decreasing by title. -/
def PhotosSorted (l : List FlickrPhoto) : Prop := List.Sorted titleLE l

instance (l : List FlickrPhoto) : Decidable (PhotosSorted l) :=
  inferInstanceAs (Decidable (List.Pairwise _ l))

/-- Model of `sort.Sort(FlickrPhotosByTitle(photolist))` from `RetrieveFromFlickr`:
produce the photo list ordered ascending by title (modelled with
insertion sort; Go's sort yields some permutation sorted the same way). -/
def sortPhotosByTitle (l : List FlickrPhoto) : List FlickrPhoto :=
  List.insertionSort titleLE l

/-! ## Go's `sort.Search`

`sort.Search(n, f)` performs binary search on `[0, n)`:

    i, j := 0, n
    for i < j {
      h := (i + j) / 2
      if !f(h) { i = h + 1 } else { j = h }
    }
    return i

The loop is embedded with an explicit fuel argument; fuel `j - i`
always suffices because the interval shrinks at every step. -/

/-- The loop of Go's `sort.Search`, with fuel. -/
def searchLoop (f : Nat → Bool) : Nat → Nat → Nat → Nat
  | 0, i, _ => i
  | fuel + 1, i, j =>
    if i < j then
      let m := (i + j) / 2
      if f m then searchLoop f fuel i m else searchLoop f fuel (m + 1) j
    else i

/-- Go `sort.Search n f`: the smallest index in `[0, n)` at which the
(monotone) predicate `f` holds, or `n` when there is none. -/
def sortSearch (n : Nat) (f : Nat → Bool) : Nat := searchLoop f n 0 n

/-! ## The reconciler's presence decision (`Process`, synckr.go:420-440)

    _, albumPresent := fromFlickr[currentDir]
    if albumPresent {
      phi := sort.Search(len(photos), func(i) bool { return photos[i].Title >= photoName })
      if phi == len(photos) { uploadNeeded = true; destinationAlbum = id }
      else { /- skip: "Already uploded" -/ }
    } else { uploadNeeded = true; destinationAlbum = "" }
-/

/-- The decision `Process` takes for one eligible file: whether an upload
is needed and against which destination album id. -/
def uploadDecision (s : Snapshot) (currentDir photoName : String) : Bool × String :=
  match lookupAlbum s currentDir with
  | some album =>
    let phi := sortSearch album.photos.length
      fun i => strLe photoName (album.photos.getD i defaultPhoto).title
    if phi = album.photos.length then (true, album.id) else (false, "")
  | none => (true, "")

/-- Correctness of the embedded `sort.Search` loop: with enough fuel and a
monotone predicate, the result `r` lies in `[i, j]`, the predicate is false
strictly below `r`, and true at `r` when `r < j`. -/
theorem searchLoop_spec (f : Nat → Bool) :
    ∀ (fuel i j : Nat), i ≤ j → j - i ≤ fuel →
      (∀ a b, a ≤ b → b < j → f a = true → f b = true) →
      i ≤ searchLoop f fuel i j ∧ searchLoop f fuel i j ≤ j ∧
        (∀ k, i ≤ k → k < searchLoop f fuel i j → f k = false) ∧
        (searchLoop f fuel i j < j → f (searchLoop f fuel i j) = true)
  | 0, i, j, hij, hfuel, _ => by
    have hji : j ≤ i := by omega
    have hij' : i = j := le_antisymm hij hji
    subst hij'
    refine ⟨le_refl _, ?_, ?_, ?_⟩ <;> simp [searchLoop]
    intro k hk hk'; omega
  | fuel + 1, i, j, hij, hfuel, hmono => by
    by_cases hlt : i < j
    · have hm_lb : i ≤ (i + j) / 2 := by
        have h1 : (i + i) / 2 ≤ (i + j) / 2 :=
          Nat.div_le_div_right (Nat.add_le_add_left hij i)
        have h2 : (i + i) / 2 = i := by omega
        omega
      have hm_ub : (i + j) / 2 < j := by omega
      cases hfm : f ((i + j) / 2) with
      | true =>
        have hrec := searchLoop_spec f fuel i ((i + j) / 2) hm_lb (by omega)
          (fun a b hab hb hfa => hmono a b hab (lt_trans hb hm_ub) hfa)
        obtain ⟨h1, h2, h3, h4⟩ := hrec
        have heq : searchLoop f (fuel + 1) i j = searchLoop f fuel i ((i + j) / 2) := by
          simp [searchLoop, hlt, hfm]
        rw [heq]
        refine ⟨h1, le_trans h2 (le_of_lt hm_ub), h3, fun _ => ?_⟩
        rcases lt_or_eq_of_le h2 with h | h
        · exact h4 h
        · rw [h]; exact hfm
      | false =>
        have hrec := searchLoop_spec f fuel ((i + j) / 2 + 1) j (by omega) (by omega) hmono
        obtain ⟨h1, h2, h3, h4⟩ := hrec
        have heq : searchLoop f (fuel + 1) i j = searchLoop f fuel ((i + j) / 2 + 1) j := by
          simp [searchLoop, hlt, hfm]
        rw [heq]
        refine ⟨by omega, h2, ?_, h4⟩
        intro k hk hk'
        by_cases hkm : k ≤ (i + j) / 2
        · cases hfk : f k with
          | true => exact absurd (hmono k ((i + j) / 2) hkm hm_ub hfk) (by simp [hfm])
          | false => rfl
        · exact h3 k (by omega) hk'
    · have hij' : i = j := by omega
      subst hij'
      have heq : searchLoop f (fuel + 1) i i = i := by simp [searchLoop]
      rw [heq]
      exact ⟨le_refl _, le_refl _, fun k hk hk' => absurd hk' (by omega),
        fun h => absurd h (lt_irrefl _)⟩

/-- Reading `List.getD` at an in-range index is `getElem`. -/
theorem getD_eq_getElem_of_lt (l : List FlickrPhoto) (k : Nat) (h : k < l.length) :
    l.getD k defaultPhoto = l[k] := by
  simp [List.getD_eq_getElem?_getD, List.getElem?_eq_getElem h]

/-- When the reconciler's `sort.Search` lands at the end of a sorted photo
list, every title in that list is strictly below `name`. -/
theorem sortSearch_eq_length_all_lt (l : List FlickrPhoto) (name : String)
    (hs : PhotosSorted l)
    (h : sortSearch l.length (fun i => strLe name (l.getD i defaultPhoto).title)
          = l.length) :
    ∀ k, k < l.length → strLe name (l.getD k defaultPhoto).title = false := by
  have hmono : ∀ a b, a ≤ b → b < l.length →
      strLe name (l.getD a defaultPhoto).title = true →
      strLe name (l.getD b defaultPhoto).title = true := by
    intro a b hab hb hfa
    rcases lt_or_eq_of_le hab with h' | h'
    · have hta : titleLE (l.getD a defaultPhoto) (l.getD b defaultPhoto) := by
        rw [getD_eq_getElem_of_lt l a (lt_trans h' hb), getD_eq_getElem_of_lt l b hb]
        exact (List.pairwise_iff_getElem.mp hs) a b (lt_trans h' hb) hb h'
      exact strLe_trans hfa hta
    · rw [← h']; exact hfa
  have hspec := searchLoop_spec (fun i => strLe name (l.getD i defaultPhoto).title)
    l.length 0 l.length (Nat.zero_le _) (by omega) (fun a b hab hb => hmono a b hab hb)
  obtain ⟨_, _, h3, _⟩ := hspec
  intro k hk
  exact h3 k (Nat.zero_le _) (by rw [← h] at hk; exact hk)

/-- Replacing the entries keyed `name` changes what `name` looks up to. -/
theorem lookupAlbum_map_replace (name : String) (v : FlickrPhotoset) :
    ∀ s : Snapshot, (lookupAlbum s name).isSome = true →
      lookupAlbum (s.map (replaceEntry name v)) name = some v
  | [], h => by simp [lookupAlbum] at h
  | (k, b) :: s, h => by
    by_cases hk : k = name
    · subst hk
      have hre : replaceEntry k v (k, b) = (k, v) := by simp [replaceEntry]
      rw [List.map_cons, hre]
      simp [lookupAlbum]
    · simp only [lookupAlbum, hk, if_false] at h
      have hre : replaceEntry name v (k, b) = (k, b) := by simp [replaceEntry, hk]
      rw [List.map_cons, hre]
      simp only [lookupAlbum, hk, if_false]
      exact lookupAlbum_map_replace name v s h

/-- Appending an entry for an absent key makes lookup find it. -/
theorem lookupAlbum_append_self (name : String) (v : FlickrPhotoset) :
    ∀ s : Snapshot, lookupAlbum s name = none →
      lookupAlbum (s ++ [(name, v)]) name = some v
  | [], _ => by simp [lookupAlbum]
  | (k, b) :: s, h => by
    by_cases hk : k = name
    · simp [lookupAlbum, hk] at h
    · simp only [lookupAlbum, hk, if_false] at h
      simp only [List.cons_append, lookupAlbum, hk, if_false]
      exact lookupAlbum_append_self name v s h

/-- Looking up the key just written by `updateAlbum` yields the new value. -/
theorem lookup_updateAlbum (s : Snapshot) (name : String) (v : FlickrPhotoset) :
    lookupAlbum (updateAlbum s name v) name = some v := by
  unfold updateAlbum
  by_cases h : (lookupAlbum s name).isSome
  · simp only [h, if_true]
    exact lookupAlbum_map_replace name v s h
  · simp only [Bool.not_eq_true] at h
    simp only [h, Bool.false_eq_true, if_false]
    exact lookupAlbum_append_self name v s (Option.not_isSome_iff_eq_none.mp (by simp [h]))

/-- Any entry of `updateAlbum s name v` is either the new entry or one of
the original entries. -/
theorem mem_updateAlbum {s : Snapshot} {name : String} {v : FlickrPhotoset}
    {kv : String × FlickrPhotoset} (h : kv ∈ updateAlbum s name v) :
    kv = (name, v) ∨ kv ∈ s := by
  unfold updateAlbum at h
  by_cases hp : (lookupAlbum s name).isSome
  · simp only [hp, if_true] at h
    obtain ⟨kv', hkv', heq⟩ := List.mem_map.mp h
    obtain ⟨k, b⟩ := kv'
    by_cases hk : k = name
    · left; rw [← heq]; simp [replaceEntry, hk]
    · right; rw [← heq]; simpa [replaceEntry, hk] using hkv'
  · simp only [Bool.not_eq_true] at hp
    simp only [hp, Bool.false_eq_true, if_false, List.mem_append] at h
    rcases h with h | h
    · right; exact h
    · left; simpa using h

/-- A successful lookup finds an actual entry of the association list. -/
theorem lookup_mem {name : String} {v : FlickrPhotoset} :
    ∀ {s : Snapshot}, lookupAlbum s name = some v → (name, v) ∈ s
  | [], h => by simp [lookupAlbum] at h
  | (k, b) :: s, h => by
    by_cases hk : k = name
    · subst hk
      simp only [lookupAlbum, if_true, Option.some.injEq] at h
      subst h
      exact List.mem_cons_self _ _
    · simp only [lookupAlbum, hk, if_false] at h
      exact List.mem_cons_of_mem _ (lookup_mem h)

/-! ## The remote inventory reader (synckr.go:154-235)

`RetrievePageFromFlickr` calls `photosets.GetPhotos` and, while the
returned photo list is empty and attempts remain, logs (dereferencing
`err.Error()`), sleeps `RetrieveInterval`, increments `nbAttempts` and
re-requests the same page:

    nbAttempts := 0
    respPhotoList, err := photosets.GetPhotos(client, true, photosetID, "", page)
    for (len(respPhotoList.Photoset.Photos) == 0) && nbAttempts < config.RetrieveAttempts {
      log.WithFields(logrus.Fields{"error": err.Error(), ...}).Debug(...)
      time.Sleep(config.RetrieveInterval * time.Second)
      nbAttempts++
      respPhotoList, err = photosets.GetPhotos(client, true, photosetID, "", page)
    }

The repository is an oracle `fetch : Nat → PageResp` giving the response
of the n-th `GetPhotos` call for this page.  The loop counter is carried
as `remaining = RetrieveAttempts - nbAttempts`, so recursion is
structural; the returned `Nat` is the final `nbAttempts`, which equals
the number of sleeps (one before each re-request).  The `.error ()`
result models the Go runtime panic raised by evaluating `err.Error()`
when `err` is `nil`. -/

/-- A `photosets.GetPhotos` response: the page's photos and the call's
error value (`none` models Go `nil`). -/
structure PageResp where
  photos : List FlickrPhoto
  err : Option String
deriving DecidableEq, Repr

/-- The retry loop of `RetrievePageFromFlickr`; `resp` is the response of
call number `nbAttempts`. -/
def retrievePageAux (fetch : Nat → PageResp) (nbAttempts : Nat) (resp : PageResp) :
    Nat → Except Unit (List FlickrPhoto × Option String × Nat)
  | 0 => .ok (resp.photos, resp.err, nbAttempts)
  | remaining + 1 =>
    if resp.photos = [] then
      match resp.err with
      | none => .error ()
      | some _ => retrievePageAux fetch (nbAttempts + 1) (fetch (nbAttempts + 1)) remaining
    else .ok (resp.photos, resp.err, nbAttempts)

/-- Function `RetrievePageFromFlickr` for one page, given the per-call oracle and
`RetrieveAttempts`. -/
def retrievePageFromFlickr (fetch : Nat → PageResp) (retrieveAttempts : Nat) :
    Except Unit (List FlickrPhoto × Option String × Nat) :=
  retrievePageAux fetch 0 (fetch 0) retrieveAttempts

/-- The per-album pagination loop of `RetrieveFromFlickr` (synckr.go:204-219):

    currentPage := 1
    currentPageContent, _ := RetrievePageFromFlickr(client, config, ps.Id, currentPage)
    for len(currentPageContent) > 0 {
      ... photolist = append(photolist, ...) ...
      currentPage++
      currentPageContent, err = RetrievePageFromFlickr(client, config, ps.Id, currentPage)
    }

`F page n` is the oracle for the n-th call on `page`; `fuel` bounds the
number of loop iterations (the Go loop has no intrinsic bound). -/
def retrieveAlbumAux (F : Nat → Nat → PageResp) (maxA : Nat) :
    Nat → Nat → List FlickrPhoto → Except Unit (List FlickrPhoto)
  | 0, _, acc => .ok acc
  | fuel + 1, page, acc =>
    match retrievePageFromFlickr (F page) maxA with
    | .error e => .error e
    | .ok (l, _, _) =>
      if l = [] then .ok acc else retrieveAlbumAux F maxA fuel (page + 1) (acc ++ l)

/-- Function `RetrieveFromFlickr`'s album loop (synckr.go:200-228): for each album
of the listing, paginate from page 1, sort the accumulated photo list by
title and store it in the snapshot under the album's title. -/
def retrieveFromFlickrAux (F : String → Nat → Nat → PageResp) (maxA fuel : Nat) :
    List (String × String) → Snapshot → Except Unit Snapshot
  | [], acc => .ok acc
  | ps :: rest, acc =>
    match retrieveAlbumAux (F ps.1) maxA fuel 1 [] with
    | .error e => .error e
    | .ok l =>
      retrieveFromFlickrAux F maxA fuel rest
        (updateAlbum acc ps.2 ⟨ps.1, sortPhotosByTitle l⟩)

/-- Function `RetrieveFromFlickr`, given the album listing (id, title pairs) and
the per-album page oracle. -/
def retrieveFromFlickr (albums : List (String × String))
    (F : String → Nat → Nat → PageResp) (maxA fuel : Nat) : Except Unit Snapshot :=
  retrieveFromFlickrAux F maxA fuel albums []

/-- If the first `k` responses (counting from call `nb`) are empty with a
non-nil error and response `k` is non-empty, the retry loop stops at
response `k` after `k` further sleeps and re-requests. -/
theorem retrievePageAux_finds (fetch : Nat → PageResp) :
    ∀ (k nb remaining : Nat), k ≤ remaining →
      (∀ j, j < k → (fetch (nb + j)).photos = [] ∧ (fetch (nb + j)).err.isSome) →
      (fetch (nb + k)).photos ≠ [] →
      retrievePageAux fetch nb (fetch nb) remaining =
        .ok ((fetch (nb + k)).photos, (fetch (nb + k)).err, nb + k)
  | 0, nb, remaining, _, _, hne => by
    rw [Nat.add_zero] at hne ⊢
    cases remaining with
    | zero => simp [retrievePageAux]
    | succ r => simp [retrievePageAux, hne]
  | k + 1, nb, remaining, hk, hprev, hne => by
    obtain ⟨h0e, h0s⟩ := hprev 0 (Nat.succ_pos k)
    obtain ⟨e, he⟩ := Option.isSome_iff_exists.mp h0s
    rw [Nat.add_zero] at h0e he
    obtain ⟨r, hr⟩ : ∃ r, remaining = r + 1 := ⟨remaining - 1, by omega⟩
    subst hr
    have hidx : nb + 1 + k = nb + (k + 1) := by omega
    have hrec := retrievePageAux_finds fetch k (nb + 1) r (by omega)
      (fun j hj => by
        have hidx' : nb + 1 + j = nb + (j + 1) := by omega
        rw [hidx']
        exact hprev (j + 1) (by omega))
      (by rw [hidx]; exact hne)
    simp only [retrievePageAux, h0e, he, if_true]
    rw [hrec, hidx]

/-- If every response within the attempt budget is empty (with non-nil
errors where the loop dereferences them), the loop gives up after
exactly `remaining` sleeps and re-requests and returns the empty page. -/
theorem retrievePageAux_exhausts (fetch : Nat → PageResp) :
    ∀ (remaining nb : Nat),
      (∀ j, j ≤ remaining → (fetch (nb + j)).photos = []) →
      (∀ j, j < remaining → (fetch (nb + j)).err.isSome) →
      retrievePageAux fetch nb (fetch nb) remaining =
        .ok ([], (fetch (nb + remaining)).err, nb + remaining)
  | 0, nb, hempty, _ => by
    have h0 := hempty 0 (Nat.le_refl 0)
    rw [Nat.add_zero] at h0
    simp [retrievePageAux, h0]
  | remaining + 1, nb, hempty, herr => by
    have h0 := hempty 0 (Nat.zero_le _)
    have h0s := herr 0 (Nat.succ_pos _)
    rw [Nat.add_zero] at h0 h0s
    obtain ⟨e, he⟩ := Option.isSome_iff_exists.mp h0s
    have hidx : nb + 1 + remaining = nb + (remaining + 1) := by omega
    have hrec := retrievePageAux_exhausts fetch remaining (nb + 1)
      (fun j hj => by
        have hidx' : nb + 1 + j = nb + (j + 1) := by omega
        rw [hidx']
        exact hempty (j + 1) (by omega))
      (fun j hj => by
        have hidx' : nb + 1 + j = nb + (j + 1) := by omega
        rw [hidx']
        exact herr (j + 1) (by omega))
    simp only [retrievePageAux, h0, he, if_true]
    rw [hrec, hidx]

/-- If the loop reaches an empty response carrying a nil error while
attempts remain, it evaluates `err.Error()` on nil: the panic. -/
theorem retrievePageAux_panics (fetch : Nat → PageResp) :
    ∀ (k nb remaining : Nat), k < remaining →
      (∀ j, j < k → (fetch (nb + j)).photos = [] ∧ (fetch (nb + j)).err.isSome) →
      (fetch (nb + k)).photos = [] →
      (fetch (nb + k)).err = none →
      retrievePageAux fetch nb (fetch nb) remaining = .error ()
  | 0, nb, remaining, hk, _, hempty, hnil => by
    obtain ⟨r, hr⟩ : ∃ r, remaining = r + 1 := ⟨remaining - 1, by omega⟩
    subst hr
    rw [Nat.add_zero] at hempty hnil
    simp [retrievePageAux, hempty, hnil]
  | k + 1, nb, remaining, hk, hprev, hempty, hnil => by
    obtain ⟨h0e, h0s⟩ := hprev 0 (Nat.succ_pos k)
    obtain ⟨e, he⟩ := Option.isSome_iff_exists.mp h0s
    rw [Nat.add_zero] at h0e he
    obtain ⟨r, hr⟩ : ∃ r, remaining = r + 1 := ⟨remaining - 1, by omega⟩
    subst hr
    have hidx : nb + 1 + k = nb + (k + 1) := by omega
    have hrec := retrievePageAux_panics fetch k (nb + 1) r (by omega)
      (fun j hj => by
        have hidx' : nb + 1 + j = nb + (j + 1) := by omega
        rw [hidx']
        exact hprev (j + 1) (by omega))
      (by rw [hidx]; exact hempty)
      (by rw [hidx]; exact hnil)
    simp only [retrievePageAux, h0e, he, if_true]
    exact hrec

/-- The snapshot invariant of the album loop: if every album already in the
accumulator is sorted, every album of the final snapshot is sorted, since
each stored photo list goes through `sort.Sort(FlickrPhotosByTitle(...))`. -/
theorem retrieveFromFlickrAux_sorted (F : String → Nat → Nat → PageResp)
    (maxA fuel : Nat) :
    ∀ (albums : List (String × String)) (acc snap : Snapshot),
      (∀ kv ∈ acc, PhotosSorted kv.2.photos) →
      retrieveFromFlickrAux F maxA fuel albums acc = .ok snap →
      ∀ kv ∈ snap, PhotosSorted kv.2.photos
  | [], acc, snap, hacc, h => by
    simp only [retrieveFromFlickrAux, Except.ok.injEq] at h
    subst h
    exact hacc
  | ps :: rest, acc, snap, hacc, h => by
    rw [retrieveFromFlickrAux] at h
    rcases hr : retrieveAlbumAux (F ps.1) maxA fuel 1 [] with e | l
    · rw [hr] at h
      simp at h
    · rw [hr] at h
      simp only at h
      refine retrieveFromFlickrAux_sorted F maxA fuel rest _ snap ?_ h
      intro kv hkv
      rcases mem_updateAlbum hkv with heq | hmem
      · rw [heq]
        exact List.sorted_insertionSort titleLE l
      · exact hacc kv hmem

end Synckr

namespace Synckr

/-! ## The reconciler's snapshot update (`Process`, synckr.go:464-468)

    photolist := fromFlickr[currentDir].Photos
    photolist = append(photolist, FlickrPhoto{photoID, photoName})
    fromFlickr[currentDir] = FlickrPhotoset{albumID, photolist}

A Go map read on a missing key yields the zero value, whose photo list is
empty. -/

/-- The snapshot mutation performed after a successful upload. -/
def applyUploadSuccess (s : Snapshot)
    (currentDir albumID photoID photoName : String) : Snapshot :=
  let photolist :=
    ((lookupAlbum s currentDir).getD defaultPhotoset).photos ++ [⟨photoID, photoName⟩]
  updateAlbum s currentDir ⟨albumID, photolist⟩

/-! ## The transfer component (`UploadPhoto`, synckr.go:289-327) and the
upload retry loop of `Process` (synckr.go:442-456)

    attemptNb := 0
    albumID, photoID, err := UploadPhoto(client, destinationAlbum, path)
    for err != nil && attemptNb < config.UploadAttempts {
      log...Warn("[WARNING] Upload attempt failed. Waiting before retry")
      time.Sleep(config.UploadInterval * time.Second)
      attemptNb++
      albumID, photoID, err = UploadPhoto(client, destinationAlbum, path)
    }

Each retry re-runs the whole of `UploadPhoto` (file upload plus album
placement) against the unchanged `destinationAlbum`.  The loop counter is
carried as `remaining = UploadAttempts - attemptNb`; the trace records
`UploadPhoto` calls and `UploadInterval` sleeps in order. -/

/-- The responses the remote calls of one `UploadPhoto` attempt would
give: `flickr.UploadFile`, `photosets.Create` (consulted only when the
destination album id is empty) and `photosets.AddPhoto` (consulted
otherwise).  Errors carry the Go error string. -/
structure UploadEnv where
  uploadFile : Except String String
  createAlbum : Except String String
  appendPhoto : Except String Unit
deriving Repr

/-- Go `UploadPhoto(client, albumID, path)`: upload the file, then create a
new album seeded with the photo (empty `albumID`) or append the photo to
the existing album; returns `(albumID, photoID, err)`.  On upload
failure the incoming album id and an empty photo id are returned with
the error; on create failure `CreateAlbum` returns an empty id. -/
def uploadPhoto (env : UploadEnv) (albumID : String) :
    String × String × Option String :=
  match env.uploadFile with
  | .error e => (albumID, "", some e)
  | .ok pid =>
    if albumID = "" then
      match env.createAlbum with
      | .error e => ("", pid, some e)
      | .ok aid => (aid, pid, none)
    else
      match env.appendPhoto with
      | .error e => (albumID, pid, some e)
      | .ok _ => (albumID, pid, none)

/-- Observable retry-loop events: an `UploadPhoto` call or a
`time.Sleep(UploadInterval)` before a retry. -/
inductive UploadEvent where
  | call : UploadEvent
  | sleep : UploadEvent
deriving DecidableEq, Repr

/-- The events of `k` retries: a sleep before each re-call. -/
def retryEvents : Nat → List UploadEvent
  | 0 => []
  | k + 1 => [.sleep, .call] ++ retryEvents k

/-- The retry loop of `Process`; `res` is the result of attempt
`attemptNb`, `envs n` the remote responses of attempt `n`. -/
def uploadLoopAux (envs : Nat → UploadEnv) (dest : String) (attemptNb : Nat)
    (res : String × String × Option String) (tr : List UploadEvent) :
    Nat → (String × String × Option String) × List UploadEvent × Nat
  | 0 => (res, tr, attemptNb)
  | remaining + 1 =>
    match res.2.2 with
    | some _ =>
      uploadLoopAux envs dest (attemptNb + 1) (uploadPhoto (envs (attemptNb + 1)) dest)
        (tr ++ [.sleep, .call]) remaining
    | none => (res, tr, attemptNb)

/-- The upload-with-retry of `Process` for one file: first call plus up to
`UploadAttempts` retries of the whole upload-plus-placement unit. -/
def processUpload (envs : Nat → UploadEnv) (maxA : Nat) (dest : String) :
    (String × String × Option String) × List UploadEvent × Nat :=
  uploadLoopAux envs dest 0 (uploadPhoto (envs 0) dest) [.call] maxA

/-- If attempts `nb..nb+k-1` fail and attempt `nb+k` succeeds, the loop
stops there, having slept once before each of the `k` re-calls. -/
theorem uploadLoopAux_finds (envs : Nat → UploadEnv) (dest : String) :
    ∀ (k nb remaining : Nat) (tr : List UploadEvent), k ≤ remaining →
      (∀ j, j < k → (uploadPhoto (envs (nb + j)) dest).2.2.isSome) →
      (uploadPhoto (envs (nb + k)) dest).2.2 = none →
      uploadLoopAux envs dest nb (uploadPhoto (envs nb) dest) tr remaining =
        (uploadPhoto (envs (nb + k)) dest, tr ++ retryEvents k, nb + k)
  | 0, nb, remaining, tr, _, _, hsucc => by
    rw [Nat.add_zero] at hsucc ⊢
    cases remaining with
    | zero => simp [uploadLoopAux, retryEvents]
    | succ r => simp [uploadLoopAux, hsucc, retryEvents]
  | k + 1, nb, remaining, tr, hk, hfail, hsucc => by
    have h0 := hfail 0 (Nat.succ_pos k)
    rw [Nat.add_zero] at h0
    obtain ⟨e, he⟩ := Option.isSome_iff_exists.mp h0
    obtain ⟨r, hr⟩ : ∃ r, remaining = r + 1 := ⟨remaining - 1, by omega⟩
    subst hr
    have hidx : nb + 1 + k = nb + (k + 1) := by omega
    have hrec := uploadLoopAux_finds envs dest k (nb + 1) r (tr ++ [.sleep, .call])
      (by omega)
      (fun j hj => by
        have hidx' : nb + 1 + j = nb + (j + 1) := by omega
        rw [hidx']
        exact hfail (j + 1) (by omega))
      (by rw [hidx]; exact hsucc)
    simp only [uploadLoopAux, he]
    rw [hrec, hidx, List.append_assoc]
    simp [retryEvents]

/-- If every attempt fails, the loop exhausts its budget: `remaining`
sleeps and re-calls, ending at attempt `nb + remaining`. -/
theorem uploadLoopAux_all_fail (envs : Nat → UploadEnv) (dest : String) :
    ∀ (remaining nb : Nat) (tr : List UploadEvent),
      (∀ j, (uploadPhoto (envs j) dest).2.2.isSome) →
      uploadLoopAux envs dest nb (uploadPhoto (envs nb) dest) tr remaining =
        (uploadPhoto (envs (nb + remaining)) dest, tr ++ retryEvents remaining,
          nb + remaining)
  | 0, nb, tr, _ => by simp [uploadLoopAux, retryEvents]
  | remaining + 1, nb, tr, hfail => by
    obtain ⟨e, he⟩ := Option.isSome_iff_exists.mp (hfail nb)
    have hidx : nb + 1 + remaining = nb + (remaining + 1) := by omega
    have hrec := uploadLoopAux_all_fail envs dest remaining (nb + 1)
      (tr ++ [.sleep, .call]) hfail
    simp only [uploadLoopAux, he]
    rw [hrec, hidx, List.append_assoc]
    simp [retryEvents]

/-- The trace never holds more than one call per available attempt. -/
theorem uploadLoopAux_call_count (envs : Nat → UploadEnv) (dest : String) :
    ∀ (remaining nb : Nat) (res : String × String × Option String)
      (tr : List UploadEvent),
      ((uploadLoopAux envs dest nb res tr remaining).2.1.count UploadEvent.call) ≤
        tr.count UploadEvent.call + remaining
  | 0, nb, res, tr => by simp [uploadLoopAux]
  | remaining + 1, nb, res, tr => by
    cases hres : res.2.2 with
    | none => simp [uploadLoopAux, hres]
    | some e =>
      simp only [uploadLoopAux, hres]
      have hrec := uploadLoopAux_call_count envs dest remaining (nb + 1)
        (uploadPhoto (envs (nb + 1)) dest) (tr ++ [.sleep, .call])
      have hcnt : (tr ++ [UploadEvent.sleep, UploadEvent.call]).count UploadEvent.call
          = tr.count UploadEvent.call + 1 := by
        rw [List.count_append]
        rfl
      omega

/-! ## The duplicate detector (`DeleteDupes`, synckr.go:238-251)

    for albumName, flickrAlbum := range *fromFlickr {
      for phi, ph := range flickrAlbum.Photos {
        if phi > 0 && ph.Title == flickrAlbum.Photos[phi-1].Title {
          log...Warn("[DELETE] Deleting duplicate.")
          photos.Delete(client, ph.ID)
        }
      }
    }

The inner loop consults only the current photo and its predecessor
(`phi > 0` holds exactly when a predecessor exists), so it is embedded as
a scan over consecutive elements; the delete calls are returned as the
list of deleted photo ids in issue order.  The function reads the
snapshot and never assigns into it; the embedding therefore returns the
traversed snapshot alongside the deletions so that non-mutation is a
provable property rather than a convention. -/

/-- The inner loop of `DeleteDupes` on one album's photo list: a delete
for each photo whose title equals its predecessor's title. -/
def dupeDeletesForAlbum : List FlickrPhoto → List String
  | a :: b :: rest =>
    (if b.title = a.title then [b.id] else []) ++ dupeDeletesForAlbum (b :: rest)
  | _ => []

/-- Function `DeleteDupes` over the snapshot: the snapshot it leaves behind and
the photo ids it deletes remotely. -/
def deleteDupes (s : Snapshot) : Snapshot × List String :=
  s.foldl (fun acc kv => (acc.1 ++ [kv], acc.2 ++ dupeDeletesForAlbum kv.2.photos))
    ([], [])

/-- Modelled from the spec's words (§4.2): "whenever photo at index i
(i>0) has the same title as photo at index i−1, issue a delete for photo
i's identifier". -/
def specDupeDeletes (l : List FlickrPhoto) : List String :=
  (List.range l.length).filterMap fun i =>
    if 0 < i ∧ (l.getD i defaultPhoto).title = (l.getD (i - 1) defaultPhoto).title
    then some (l.getD i defaultPhoto).id else none

/-- Unfolding `specDupeDeletes` at a cons: index 0 never fires and the
remaining indices compare each element of `l` with its predecessor in
`a :: l`. -/
theorem specDupeDeletes_cons (a : FlickrPhoto) (l : List FlickrPhoto) :
    specDupeDeletes (a :: l) =
      (List.range l.length).filterMap fun i =>
        if (l.getD i defaultPhoto).title = ((a :: l).getD i defaultPhoto).title
        then some (l.getD i defaultPhoto).id else none := by
  unfold specDupeDeletes
  rw [List.length_cons, List.range_succ_eq_map, List.filterMap_cons]
  simp only [lt_self_iff_false, false_and, if_false, List.filterMap_map]
  congr 1
  funext i
  simp [Function.comp]

/-- The code's predecessor scan issues exactly the deletions of the
spec's index formulation. -/
theorem dupeDeletesForAlbum_eq_spec :
    ∀ l, dupeDeletesForAlbum l = specDupeDeletes l
  | [] => by simp [dupeDeletesForAlbum, specDupeDeletes]
  | [a] => by simp [dupeDeletesForAlbum, specDupeDeletes]
  | a :: b :: rest => by
    have ih := dupeDeletesForAlbum_eq_spec (b :: rest)
    have htail :
        (List.range rest.length).filterMap
            ((fun i => if ((b :: rest).getD i defaultPhoto).title
                  = ((a :: b :: rest).getD i defaultPhoto).title
                then some ((b :: rest).getD i defaultPhoto).id else none) ∘ Nat.succ)
          = (List.range rest.length).filterMap fun i =>
              if (rest.getD i defaultPhoto).title
                  = ((b :: rest).getD i defaultPhoto).title
              then some (rest.getD i defaultPhoto).id else none := by
      congr 1
    rw [dupeDeletesForAlbum, ih, specDupeDeletes_cons a (b :: rest),
      specDupeDeletes_cons b rest, List.length_cons, List.range_succ_eq_map,
      List.filterMap_cons, List.filterMap_map, htail]
    by_cases hab : b.title = a.title
    · simp [hab]
    · simp [hab]

/-- Characterization of the `DeleteDupes` fold with generalized
accumulators: the traversed snapshot is appended unchanged and the
deletions of every album are concatenated in order. -/
theorem deleteDupes_foldl :
    ∀ (s : Snapshot) (acc1 : Snapshot) (acc2 : List String),
      s.foldl (fun acc kv => (acc.1 ++ [kv], acc.2 ++ dupeDeletesForAlbum kv.2.photos))
        (acc1, acc2) =
        (acc1 ++ s, acc2 ++ (s.map fun kv => specDupeDeletes kv.2.photos).flatten)
  | [], acc1, acc2 => by simp
  | kv :: s, acc1, acc2 => by
    rw [List.foldl_cons, deleteDupes_foldl s]
    simp [dupeDeletesForAlbum_eq_spec, List.append_assoc]

/-! ## Extension eligibility (`Process`, synckr.go:401-405)

    for _, i := range allowedExtensions {
      if strings.ToLower(filepath.Ext(path)) == i {
        isAllowedExt = true
      }
    }

Only the file's extension is case-folded; entries of the allowed set are
compared verbatim. -/

/-- The extension filter of the walk callback, given the file's
extension as produced by `filepath.Ext`. -/
def isAllowedExt (allowedExtensions : List String) (ext : String) : Bool :=
  allowedExtensions.any fun i => strToLower ext == i

end Synckr

namespace Synckr

/-! ## The walk callback of `Process` for one eligible file
(synckr.go:412-474): decide presence, retry the upload, and on success
update the snapshot; on exhausted retries log `[ERROR] Upload failed` and
leave the snapshot untouched.  The callback returns the walk's *incoming*
`err` parameter — the upload error is shadowed inside the `if` block — so
the walk proceeds to the remaining files either way; `processWalk` folds
the per-file step over the scanned files, accumulating log lines. -/

/-- One eligible scanned file: its album name (parent directory base
name) and photo name (file name up to the first dot). -/
structure FileEntry where
  currentDir : String
  photoName : String
deriving DecidableEq, Repr

/-- The per-file reconciliation step, returning the updated snapshot and
the error-level log lines the step emitted. -/
def processFile (envs : Nat → UploadEnv) (maxA : Nat) (s : Snapshot)
    (f : FileEntry) : Snapshot × List String :=
  let d := uploadDecision s f.currentDir f.photoName
  if d.1 then
    let r := processUpload envs maxA d.2
    match r.1.2.2 with
    | some _ => (s, ["[ERROR] Upload failed"])
    | none => (applyUploadSuccess s f.currentDir r.1.1 r.1.2.1 f.photoName, [])
  else (s, [])

/-- The walk over the eligible files, threading the snapshot. -/
def processWalk (envsFor : FileEntry → Nat → UploadEnv) (maxA : Nat) :
    Snapshot → List FileEntry → List String → Snapshot × List String
  | s, [], logs => (s, logs)
  | s, f :: rest, logs =>
    let r := processFile (envsFor f) maxA s f
    processWalk envsFor maxA r.1 rest (logs ++ r.2)

end Synckr

namespace Synckr

/-- C1: on the snapshot holding album `Trip` with the single photo
`("idB", "B")`, the file named `A` is not present in the album, yet the
code decides that no upload is needed (the `sort.Search` index is `0`,
not the length `1`, and no title-equality check is made), so the absent
photo is skipped. -/
theorem uploadDecision_skips_absent_photo :
    uploadDecision [("Trip", ⟨"aid", [⟨"idB", "B"⟩]⟩)] "Trip" "A" = (false, "") ∧
    ∀ p ∈ [FlickrPhoto.mk "idB" "B"], p.title ≠ "A" := by
  constructor
  · rfl
  · decide

/-- C2: when the reconciler decided an upload was needed and it succeeded,
appending the new `(id, title)` pair to the album's photo list and writing
the album id back under the album name keeps every album of the snapshot
sorted ascending by title, and the album name now maps to the effective
album id with the pair appended. -/
theorem upload_success_preserves_sorted_snapshot
    (s : Snapshot) (dir name aid pid dest : String)
    (hsorted : ∀ kv ∈ s, PhotosSorted kv.2.photos)
    (hdec : uploadDecision s dir name = (true, dest)) :
    (∀ kv ∈ applyUploadSuccess s dir aid pid name, PhotosSorted kv.2.photos) ∧
      lookupAlbum (applyUploadSuccess s dir aid pid name) dir =
        some ⟨aid, ((lookupAlbum s dir).getD defaultPhotoset).photos ++ [⟨pid, name⟩]⟩ := by
  have hold : ∀ p ∈ ((lookupAlbum s dir).getD defaultPhotoset).photos,
      titleLE p ⟨pid, name⟩ := by
    cases hl : lookupAlbum s dir with
    | none => simp [defaultPhotoset]
    | some album =>
      intro p hp
      simp only [Option.getD_some] at hp
      have hphi : sortSearch album.photos.length
          (fun i => strLe name (album.photos.getD i defaultPhoto).title)
            = album.photos.length := by
        by_contra hne
        simp only [uploadDecision, hl, hne, if_false] at hdec
        exact absurd (congrArg Prod.fst hdec) (by simp)
      have hsa : PhotosSorted album.photos := hsorted (dir, album) (lookup_mem hl)
      obtain ⟨i, hi, hip⟩ := List.mem_iff_getElem.mp hp
      have hfalse := sortSearch_eq_length_all_lt album.photos name hsa hphi i hi
      rw [getD_eq_getElem_of_lt album.photos i hi, hip] at hfalse
      rcases strLe_total p.title name with h | h
      · exact h
      · rw [h] at hfalse; exact absurd hfalse (by simp)
  have hnew : PhotosSorted
      (((lookupAlbum s dir).getD defaultPhotoset).photos ++ [⟨pid, name⟩]) := by
    refine List.pairwise_append.mpr ⟨?_, ?_, ?_⟩
    · cases hl : lookupAlbum s dir with
      | none => simp [defaultPhotoset, List.Pairwise.nil]
      | some album =>
        simpa using hsorted (dir, album) (lookup_mem hl)
    · exact List.pairwise_singleton _ _
    · intro a ha b hb
      rw [List.mem_singleton.mp hb]
      exact hold a ha
  refine ⟨?_, lookup_updateAlbum s dir _⟩
  intro kv hkv
  rcases mem_updateAlbum hkv with h | h
  · rw [h]
    exact hnew
  · exact hsorted kv h

/-- Witness for C2 at a concrete snapshot: album `D` holds `("p1","a")`,
the file `b` is uploaded as `p2`, and the updated snapshot stays sorted. -/
theorem upload_success_preserves_sorted_snapshot_witness :
    (∀ kv ∈ applyUploadSuccess [("D", ⟨"x", [⟨"p1", "a"⟩]⟩)] "D" "x" "p2" "b",
        PhotosSorted kv.2.photos) ∧
      lookupAlbum (applyUploadSuccess [("D", ⟨"x", [⟨"p1", "a"⟩]⟩)] "D" "x" "p2" "b") "D" =
        some ⟨"x", ((lookupAlbum [("D", ⟨"x", [⟨"p1", "a"⟩]⟩)] "D").getD
          defaultPhotoset).photos ++ [⟨"p2", "b"⟩]⟩ :=
  upload_success_preserves_sorted_snapshot [("D", ⟨"x", [⟨"p1", "a"⟩]⟩)] "D" "b" "x" "p2" "x"
    (by decide) (by decide)

/-- C3 counterexample: the claim as stated covers every empty page, but
on an empty response whose error is `nil` — a legitimately empty album,
the very kind of fetch the claim covers — the code does not re-request
the page at all: the retry branch dereferences `err.Error()` on nil
(synckr.go:163) and panics, so the page call neither retries nor returns
the empty page as end-of-data, and pagination propagates the panic
instead of terminating cleanly. -/
theorem pagination_empty_nil_error_counterexample :
    retrievePageFromFlickr (fun _ => PageResp.mk [] none) 2 = .error () ∧
    retrievePageFromFlickr (fun _ => PageResp.mk [] none) 2 ≠
      .ok ([], none, 2) ∧
    retrieveAlbumAux (fun _ _ => PageResp.mk [] none) 2 1 1 [] = .error () := by
  refine ⟨rfl, ?_, rfl⟩
  intro h
  exact Except.noConfusion h

/-- C3 as amended: the page-retry policy of the inventory reader, for
pages whose empty responses carry a non-nil error (an empty response
with a nil error panics instead — see the counterexample).  With the
first `k` responses for a page empty with non-nil errors:
if response `k` is non-empty, the loop returns it after exactly `k`
sleeps/re-requests of the same page and pagination appends it and
advances to the next page; if the budget is exhausted (`k = maxA`) and the
response is still empty, the loop returns the empty page after exactly
`maxA` sleeps/re-requests and pagination for the album terminates with
what was accumulated. -/
theorem pagination_retry_policy
    (F : Nat → Nat → PageResp) (maxA k fuel page : Nat) (acc : List FlickrPhoto)
    (hk : k ≤ maxA)
    (hprev : ∀ j, j < k → (F page j).photos = [] ∧ (F page j).err.isSome) :
    ((F page k).photos ≠ [] →
      retrievePageFromFlickr (F page) maxA =
        .ok ((F page k).photos, (F page k).err, k) ∧
      retrieveAlbumAux F maxA (fuel + 1) page acc =
        retrieveAlbumAux F maxA fuel (page + 1) (acc ++ (F page k).photos)) ∧
    (k = maxA → (F page k).photos = [] →
      retrievePageFromFlickr (F page) maxA = .ok ([], (F page maxA).err, maxA) ∧
      retrieveAlbumAux F maxA (fuel + 1) page acc = .ok acc) := by
  constructor
  · intro hne
    have h1 : retrievePageFromFlickr (F page) maxA =
        .ok ((F page k).photos, (F page k).err, k) := by
      have h := retrievePageAux_finds (F page) k 0 maxA hk
        (fun j hj => by simpa using hprev j hj) (by simpa using hne)
      simpa [retrievePageFromFlickr] using h
    refine ⟨h1, ?_⟩
    rw [retrieveAlbumAux, h1]
    simp only
    rw [if_neg hne]
  · intro hkm hempty
    subst hkm
    have h1 : retrievePageFromFlickr (F page) k = .ok ([], (F page k).err, k) := by
      have h := retrievePageAux_exhausts (F page) k 0
        (fun j hj => by
          rcases Nat.lt_or_ge j k with h' | h'
          · simpa using (hprev j h').1
          · have hjk : j = k := by omega
            subst hjk
            simpa using hempty)
        (fun j hj => by simpa using (hprev j hj).2)
      simpa [retrievePageFromFlickr] using h
    refine ⟨h1, ?_⟩
    rw [retrieveAlbumAux, h1]
    simp

/-- Oracle for the C3 witness: page 1 responds empty once and then with
one photo; every other page always responds empty with a non-nil error. -/
def c3Oracle : Nat → Nat → PageResp := fun page j =>
  if page = 1 then
    (if j = 0 then ⟨[], some "timeout"⟩ else ⟨[⟨"i1", "t1"⟩], some "timeout"⟩)
  else ⟨[], some "timeout"⟩

/-- Witness for C3 with `RetrieveAttempts = 2`: page 1 succeeds on the
retry (one sleep) and is accumulated; page 2 stays empty through the
budget (two sleeps) and pagination stops. -/
theorem pagination_retry_policy_witness :
    (retrievePageFromFlickr (c3Oracle 1) 2 = .ok ([⟨"i1", "t1"⟩], some "timeout", 1) ∧
      retrieveAlbumAux c3Oracle 2 2 1 [] =
        retrieveAlbumAux c3Oracle 2 1 2 ([] ++ [⟨"i1", "t1"⟩])) ∧
    (retrievePageFromFlickr (c3Oracle 2) 2 = .ok ([], some "timeout", 2) ∧
      retrieveAlbumAux c3Oracle 2 2 2 [⟨"i1", "t1"⟩] = .ok [⟨"i1", "t1"⟩]) := by
  constructor
  · exact (pagination_retry_policy c3Oracle 2 1 1 1 [] (by decide) (by decide)).1
      (by decide)
  · exact (pagination_retry_policy c3Oracle 2 2 1 2 [⟨"i1", "t1"⟩] (by decide)
      (by decide)).2 rfl (by decide)

/-- C10: whenever a page response within the attempt budget is empty and
its error is `nil`, the retry branch's `err.Error()` log field is a nil
dereference: the embedded function reaches the panic (`.error ()`)
instead of returning the empty page. -/
theorem empty_page_nil_error_panics (fetch : Nat → PageResp) (maxA k : Nat)
    (hk : k < maxA)
    (hprev : ∀ j, j < k → (fetch j).photos = [] ∧ (fetch j).err.isSome)
    (hempty : (fetch k).photos = [])
    (hnil : (fetch k).err = none) :
    retrievePageFromFlickr fetch maxA = .error () := by
  have h := retrievePageAux_panics fetch k 0 maxA hk
    (fun j hj => by simpa using hprev j hj)
    (by simpa using hempty) (by simpa using hnil)
  simpa [retrievePageFromFlickr] using h

/-- Witness for C10: a legitimately empty album (first response empty,
`nil` error) makes `RetrievePageFromFlickr` panic under the default
`RetrieveAttempts = 5`. -/
theorem empty_page_nil_error_panics_witness :
    retrievePageFromFlickr (fun _ => PageResp.mk [] none) 5 = .error () :=
  empty_page_nil_error_panics (fun _ => PageResp.mk [] none) 5 0 (by decide)
    (fun j hj => absurd hj (by omega)) rfl rfl

/-- C6: every album stored in the snapshot produced by the remote
inventory reader has its photo sequence sorted non-decreasing by title. -/
theorem snapshot_sorted_after_retrieve (albums : List (String × String))
    (F : String → Nat → Nat → PageResp) (maxA fuel : Nat) (snap : Snapshot)
    (h : retrieveFromFlickr albums F maxA fuel = .ok snap) :
    ∀ kv ∈ snap, PhotosSorted kv.2.photos :=
  retrieveFromFlickrAux_sorted F maxA fuel albums [] snap (by simp) h

/-- Calls in the events of `k` retries: one per retry. -/
theorem retryEvents_count_call : ∀ k, (retryEvents k).count UploadEvent.call = k
  | 0 => rfl
  | k + 1 => by
    have h := retryEvents_count_call k
    rw [retryEvents, List.count_append, h]
    show 1 + k = k + 1
    omega

/-- Sleeps in the events of `k` retries: one per retry. -/
theorem retryEvents_count_sleep : ∀ k, (retryEvents k).count UploadEvent.sleep = k
  | 0 => rfl
  | k + 1 => by
    have h := retryEvents_count_sleep k
    rw [retryEvents, List.count_append, h]
    show 1 + k = k + 1
    omega

/-- C4: the upload-plus-placement operation is retried as a unit.  With
attempts `0..k-1` failing and attempt `k` succeeding (`k ≤ UploadAttempts`),
the loop returns attempt `k`'s successful result after a trace of exactly
`k + 1` `UploadPhoto` calls and `k` sleeps, one sleep before each
re-call; and, in general, any run's trace holds at most
`UploadAttempts + 1` calls. -/
theorem upload_retry_as_unit (envs : Nat → UploadEnv) (maxA k : Nat) (dest : String)
    (hk : k ≤ maxA)
    (hfail : ∀ j, j < k → (uploadPhoto (envs j) dest).2.2.isSome)
    (hsucc : (uploadPhoto (envs k) dest).2.2 = none) :
    (processUpload envs maxA dest =
        (uploadPhoto (envs k) dest, UploadEvent.call :: retryEvents k, k) ∧
      (UploadEvent.call :: retryEvents k).count UploadEvent.call = k + 1 ∧
      (UploadEvent.call :: retryEvents k).count UploadEvent.sleep = k) ∧
    ∀ (envs2 : Nat → UploadEnv) (maxA2 : Nat) (dest2 : String),
      ((processUpload envs2 maxA2 dest2).2.1.count UploadEvent.call) ≤ maxA2 + 1 := by
  refine ⟨⟨?_, ?_, ?_⟩, ?_⟩
  · have h := uploadLoopAux_finds envs dest k 0 maxA [.call] hk
      (fun j hj => by simpa using hfail j hj) (by simpa using hsucc)
    simpa [processUpload] using h
  · rw [List.count_cons_self, retryEvents_count_call]
  · rw [List.count_cons_of_ne (by simp), retryEvents_count_sleep]
  · intro envs2 maxA2 dest2
    have h := uploadLoopAux_call_count envs2 dest2 maxA2 0
      (uploadPhoto (envs2 0) dest2) [.call]
    have hc : ([UploadEvent.call]).count UploadEvent.call = 1 := rfl
    simp only [processUpload]
    omega

/-- Attempt responses for the C4 witness: the first two `UploadPhoto`
attempts fail at the file-upload call, the third succeeds. -/
def c4Envs : Nat → UploadEnv := fun n =>
  if n < 2 then ⟨.error "http 500", .ok "album9", .ok ()⟩
  else ⟨.ok "photo9", .ok "album9", .ok ()⟩

/-- Witness for C4, the spec's scenario: two failures then success under
`UploadAttempts = 5` gives exactly 3 calls, 2 sleeps, final success. -/
theorem upload_retry_as_unit_witness :
    (processUpload c4Envs 5 "album7" =
        (("album7", "photo9", none),
          [UploadEvent.call, UploadEvent.sleep, UploadEvent.call,
            UploadEvent.sleep, UploadEvent.call], 2) ∧
      [UploadEvent.call, UploadEvent.sleep, UploadEvent.call,
        UploadEvent.sleep, UploadEvent.call].count UploadEvent.call = 3 ∧
      [UploadEvent.call, UploadEvent.sleep, UploadEvent.call,
        UploadEvent.sleep, UploadEvent.call].count UploadEvent.sleep = 2) :=
  (upload_retry_as_unit c4Envs 5 2 "album7" (by decide) (by decide) (by decide)).1

/-- C5: when an upload was decided necessary and every attempt fails, the
per-file step emits the upload-failure error log, returns the snapshot
unchanged (no photo appended, no album id rewritten), and the walk
continues with the remaining files. -/
theorem upload_exhaustion_continues
    (envsFor : FileEntry → Nat → UploadEnv) (maxA : Nat) (s : Snapshot)
    (f : FileEntry) (rest : List FileEntry) (logs : List String) (dest : String)
    (hdec : uploadDecision s f.currentDir f.photoName = (true, dest))
    (hfail : ∀ j, (uploadPhoto (envsFor f j) dest).2.2.isSome) :
    processFile (envsFor f) maxA s f = (s, ["[ERROR] Upload failed"]) ∧
    processWalk envsFor maxA s (f :: rest) logs =
      processWalk envsFor maxA s rest (logs ++ ["[ERROR] Upload failed"]) := by
  have hall := uploadLoopAux_all_fail (envsFor f) dest maxA 0 [.call] hfail
  obtain ⟨e, he⟩ := Option.isSome_iff_exists.mp (hfail maxA)
  have hpu : (processUpload (envsFor f) maxA dest).1.2.2 = some e := by
    rw [processUpload, hall]
    simpa using he
  have hpf : processFile (envsFor f) maxA s f = (s, ["[ERROR] Upload failed"]) := by
    simp [processFile, hdec, hpu]
  refine ⟨hpf, ?_⟩
  simp only [processWalk, hpf]

/-- Attempt responses for the C5 witness: every attempt's file upload
fails. -/
def c5Envs : FileEntry → Nat → UploadEnv := fun _ _ => ⟨.error "boom", .ok "a1", .ok ()⟩

/-- Witness for C5: with one retry allowed and all attempts failing, the
file is logged as failed, the snapshot entry of album `D` is untouched,
and the walk moves on to the next file. -/
theorem upload_exhaustion_continues_witness :
    processFile (c5Envs ⟨"D", "b"⟩) 1 [("D", ⟨"x", [⟨"p1", "a"⟩]⟩)] ⟨"D", "b"⟩ =
      ([("D", ⟨"x", [⟨"p1", "a"⟩]⟩)], ["[ERROR] Upload failed"]) ∧
    processWalk c5Envs 1 [("D", ⟨"x", [⟨"p1", "a"⟩]⟩)] [⟨"D", "b"⟩, ⟨"D", "c"⟩] [] =
      processWalk c5Envs 1 [("D", ⟨"x", [⟨"p1", "a"⟩]⟩)] [⟨"D", "c"⟩]
        ([] ++ ["[ERROR] Upload failed"]) :=
  upload_exhaustion_continues c5Envs 1 [("D", ⟨"x", [⟨"p1", "a"⟩]⟩)] ⟨"D", "b"⟩
    [⟨"D", "c"⟩] [] "x" (by decide) (fun _ => rfl)

/-- Oracle for the C6 witness: every page request returns an empty page
with a non-nil error. -/
def c6Oracle : String → Nat → Nat → PageResp := fun _ _ _ => ⟨[], some "eof"⟩

/-- Witness for C6 on a one-album listing whose pages are all empty. -/
theorem snapshot_sorted_after_retrieve_witness :
    PhotosSorted (("T", FlickrPhotoset.mk "x" []) : String × FlickrPhotoset).2.photos :=
  snapshot_sorted_after_retrieve [("x", "T")] c6Oracle 1 1 [("T", ⟨"x", []⟩)] rfl
    ("T", ⟨"x", []⟩) (by simp)

/-- C7: over every album of the snapshot, `DeleteDupes` issues a delete
for exactly the photos at index `i > 0` whose title equals the title at
index `i - 1`, passing photo `i`'s identifier; on the sorted album
`[("id1","A"),("id2","A"),("id3","B")]` exactly the single delete `"id2"`
is issued. -/
theorem deleteDupes_deletes_adjacent_duplicates :
    (∀ s : Snapshot,
      (deleteDupes s).2 = (s.map fun kv => specDupeDeletes kv.2.photos).flatten) ∧
    deleteDupes [("Album", ⟨"sid", [⟨"id1", "A"⟩, ⟨"id2", "A"⟩, ⟨"id3", "B"⟩]⟩)] =
      ([("Album", ⟨"sid", [⟨"id1", "A"⟩, ⟨"id2", "A"⟩, ⟨"id3", "B"⟩]⟩)], ["id2"]) := by
  constructor
  · intro s
    rw [deleteDupes, deleteDupes_foldl]
    simp
  · rfl

/-- C8: `DeleteDupes` never mutates the in-memory snapshot: the snapshot
it hands back is the one it was given, every album id and photo sequence
included (deleted duplicates stay listed). -/
theorem deleteDupes_never_mutates_snapshot (s : Snapshot) :
    (deleteDupes s).1 = s := by
  rw [deleteDupes, deleteDupes_foldl]
  simp

/-- C9 counterexample: the file extension `.jpg` and the allowed entry
`".JPG"` agree case-insensitively, yet the file is not eligible — the
code lowercases only the file's extension, never the set entry. -/
theorem isAllowedExt_not_set_case_insensitive :
    isAllowedExt [".JPG"] ".jpg" = false ∧ strToLower ".jpg" = strToLower ".JPG" :=
  ⟨by decide, by decide⟩

/-- C9 amended: eligibility lowercases only the file's extension: a file
is eligible exactly when its lowercased extension is verbatim a member of
the allowed set; in particular `.JPG` is eligible when the set holds
`".jpg"`, while `.jpg` against `".JPG"` is not (see the counterexample). -/
theorem isAllowedExt_lowers_file_extension_only :
    (∀ (allowed : List String) (ext : String),
      (isAllowedExt allowed ext = true ↔ strToLower ext ∈ allowed)) ∧
    isAllowedExt [".jpg"] ".JPG" = true := by
  constructor
  · intro allowed ext
    rw [isAllowedExt, List.any_eq_true]
    constructor
    · rintro ⟨i, hi, hb⟩
      rw [beq_iff_eq] at hb
      rw [hb]
      exact hi
    · intro h
      exact ⟨strToLower ext, h, beq_self_eq_true _⟩
  · decide

end Synckr
